/-
Verification of core invariants of a VariBAD-style meta-RL code base:
the BAMDP environment wrapper (environments/wrappers.py), the grid
navigation belief updates (environments/navigation/gridworld.py), the
encoder hidden-state reset logic (utils/helpers.py, metalearner.py) and
the time-limit masking used for bootstrapped returns.
-/
import Mathlib

/-! ## BAMDP wrapper (VariBadWrapper, environments/wrappers.py) -/

/-- One step of the episode-counting logic of VariBadWrapper.step
(environments/wrappers.py, lines 129-164).  Inputs: the number of
episodes per task K, the current episode_count c, and the done flag
reported by the underlying MDP for this step.  Outputs: the new
episode_count, the done_bamdp flag returned to the caller, and whether
the step performed an automatic inner reset (reset_mdp, attaching the
new start state to the info dict under the start_state key; the Maze
branch additionally attaches term_state but resets all the same). -/
def variBadStep (K c : ℕ) (d : Bool) : ℕ × Bool × Bool :=
  if d then
    ((c + 1), decide (c + 1 = K), !(decide (c + 1 = K)))
  else
    (c, false, false)

/-- Trace of (done_bamdp, performed-inner-reset) outputs produced by
repeated VariBadWrapper.step calls, starting from episode_count c, over
a list of inner-MDP done flags. -/
def variBadRun (K c : ℕ) : List Bool → List (Bool × Bool)
  | [] => []
  | d :: ds =>
      ((variBadStep K c d).2.1, (variBadStep K c d).2.2) ::
        variBadRun K (variBadStep K c d).1 ds

/-- Horizon computed in VariBadWrapper.__init__ (wrappers.py lines
88-94): episodes_per_task times the inner MDP horizon, plus one extra
transition slot per in-between inner reset. -/
def horizon_bamdp (K H : ℕ) : ℕ := K * H + (K - 1)

/-- Inner-MDP done-flag trace of one inner episode that runs for exactly
H steps: done is signalled only at the last step. -/
def inner_episode_trace (H : ℕ) : List Bool := List.replicate (H - 1) false ++ [true]

/-- Done-flag trace of a full BAMDP episode consisting of K inner
episodes of exactly H steps each. -/
def bamdp_episode_trace (K H : ℕ) : List Bool :=
  (List.replicate K (inner_episode_trace H)).flatten

/-! ## VariBadWrapper.reset error handling (wrappers.py lines 99-119) -/

/-- Python exception classes distinguished by the except clauses of
VariBadWrapper.reset. -/
inductive PyExc
  | typeError
  | attributeError
  | other
deriving DecidableEq

/-- Embedding of the try/except around env.reset_task in
VariBadWrapper.reset: a TypeError from the task-spec call is caught and
the call is retried with no task argument; any other exception
propagates, as does any exception of the retry. -/
def try_reset_task {τ : Type} (resetTask : Option τ → Except PyExc Unit)
    (task : Option τ) : Except PyExc Unit :=
  match resetTask task with
  | Except.error PyExc.typeError => resetTask none
  | r => r

/-- Embedding of the try/except around env.reset in VariBadWrapper.reset:
an AttributeError falls back to env.unwrapped.reset. -/
def try_env_reset (envReset unwrappedReset : Unit → Except PyExc (List ℚ)) :
    Except PyExc (List ℚ) :=
  match envReset () with
  | Except.error PyExc.attributeError => unwrappedReset ()
  | r => r

/-- Result of a successful VariBadWrapper.reset: the start observation
(with the done-flag bit appended when add_done_info is set) and the
freshly zeroed episode and step counters and done_mdp flag. -/
structure VariBadResetResult where
  state : List ℚ
  episode_count : ℕ
  step_count_bamdp : ℕ
  done_mdp : Bool
deriving DecidableEq

/-- Embedding of VariBadWrapper.reset (wrappers.py lines 99-119). -/
def variBadReset {τ : Type} (resetTask : Option τ → Except PyExc Unit)
    (envReset unwrappedReset : Unit → Except PyExc (List ℚ))
    (addDoneInfo : Bool) (task : Option τ) : Except PyExc VariBadResetResult :=
  match try_reset_task resetTask task with
  | Except.error e => Except.error e
  | Except.ok _ =>
      match try_env_reset envReset unwrappedReset with
      | Except.error e => Except.error e
      | Except.ok s =>
          Except.ok ⟨if addDoneInfo then s ++ [0] else s, 0, 0, false⟩

/-! ## Encoder hidden-state resets (utils/helpers.py update_encoding,
metalearner.py train loop) -/

/-- Modelled from the spec: encoder.reset_hidden is not under src; per
section 4.4 of the spec, for every worker whose done_mask entry is true
the hidden-state slice is replaced with the prior hidden state, and all
other slices pass through unchanged. -/
def reset_hidden {H : Type} (prior : H) (hs : List H) (done : List Bool) : List H :=
  List.zipWith (fun h d => if d then prior else h) hs done

/-- Embedding of update_encoding (utils/helpers.py lines 187-202): when
a done mask is given, the recurrent hidden state is first reset via
encoder.reset_hidden, then the encoder consumes the step and produces
the next hidden state per worker (the per-step encoder transition is
abstracted as encStep, closed over this step's action, states and
reward). -/
def update_encoding {H : Type} (encStep : H → H) (prior : H)
    (done : Option (List Bool)) (hs : List H) : List H :=
  match done with
  | some d => (reset_hidden prior hs d).map encStep
  | none => hs.map encStep

/-- Rollout of the training loop of MetaLearner.train (metalearner.py
lines 233-249): at every step the per-worker done flags of the
environment step are passed to update_encoding. -/
def encode_rollout {H : Type} (prior : H) :
    List H → List (List Bool × (H → H)) → List H
  | hs, [] => hs
  | hs, (d, f) :: rest => encode_rollout prior (update_encoding f prior (some d) hs) rest

/-! ## Recompute-embeddings self-check (utils/helpers.py lines 228-278) -/

/-- Outcome of the latent consistency check at the end of
recompute_embeddings: either the check passes silently, or a warning is
emitted and a blocking pdb break is entered.  No other outcome (retry,
suppression after detection) exists in the code. -/
inductive RecomputeOutcome
  | pass
  | warnAndBreak
deriving DecidableEq

/-- Sum of the elementwise differences of two sequences, the quantity
the assertions in recompute_embeddings compare against zero (the sum of
the difference tensor of the concatenated latent sequences). -/
def diffSum (xs ys : List ℚ) : ℚ := (List.zipWith (fun a b => a - b) xs ys).sum

/-- Embedding of the consistency check of recompute_embeddings
(helpers.py lines 267-274): only on the first update epoch
(update_idx = 0, the only point where the encoder parameters are
unchanged since online collection) the summed difference of the stored
and recomputed latent means and logvars is asserted to be zero; an
AssertionError triggers a warning followed by pdb.set_trace. -/
def recompute_check (update_idx : ℕ) (storedMean newMean storedLogvar newLogvar : List ℚ) :
    RecomputeOutcome :=
  if update_idx = 0 then
    if diffSum storedMean newMean = 0 ∧ diffSum storedLogvar newLogvar = 0 then
      RecomputeOutcome.pass
    else
      RecomputeOutcome.warnAndBreak
  else
    RecomputeOutcome.pass

/-! ## Time-limit masking (TimeLimitMask, wrappers.py lines 188-194, and
MetaLearner.train, metalearner.py lines 235-239) -/

/-- Embedding of TimeLimitMask.step (wrappers.py lines 188-194): the
bad_transition key is present in the outgoing info dict when it was
already present in the underlying info, or when the step is done and
the elapsed step count of the inner time limit equals the maximum. -/
def time_limit_mask_info (done : Bool) (maxSteps elapsed : ℕ) (infoBad : Bool) : Bool :=
  infoBad || (done && decide (maxSteps = elapsed))

/-- Embedding of the bad_masks computation of MetaLearner.train
(metalearner.py line 239): 0.0 when the info dict holds the
bad_transition key, 1.0 otherwise. -/
def bad_mask_of (infoBad : Bool) : ℚ := if infoBad then 0 else 1

/-- Embedding of the masks_done computation of MetaLearner.train
(metalearner.py line 237): 0.0 at done steps, 1.0 otherwise. -/
def mask_of (done : Bool) : ℚ := if done then 0 else 1

/-- Modelled from the spec: the storage-side bootstrapped-return update
with proper time limits is not under src; per sections 4.5 and 8.6 of
the spec, bad_masks distinguishes a time-limit truncation from a true
termination when returns are computed, with one backward step combining
the next return, the reward, the value estimate and both masks. -/
def return_update (gamma ret_next reward value mask bad : ℚ) : ℚ :=
  (ret_next * gamma * mask + reward) * bad + (1 - bad) * value

/-! ## Grid navigation environment (environments/navigation/gridworld.py),
embedded at the default configuration: hall_with_door_every = None,
ring = False, stuck = False, new_state_r = None, distance_reward = False,
show_goal_at_start = False. -/

/-- Coordinates lying inside the n-by-n grid. -/
def inRangeCoord (n : ℕ) (g : ℤ × ℤ) : Prop :=
  0 ≤ g.1 ∧ g.1 < (n : ℤ) ∧ 0 ≤ g.2 ∧ g.2 < (n : ℤ)

instance (n : ℕ) (g : ℤ × ℤ) : Decidable (inRangeCoord n g) := by
  rw [inRangeCoord]
  infer_instance

/-- Embedding of GridNavi.task_to_id (gridworld.py lines 213-231): the
cell index in the row-major arange matrix, mat at row g.1 and column
g.2, which is g.1 * n + g.2. -/
def task_to_id (n : ℕ) (g : ℤ × ℤ) : ℕ := (g.1 * (n : ℤ) + g.2).toNat

/-- Total mass of a belief vector over the n * n cells, as summed by
the numpy sum over the belief array. -/
def beliefSum (n : ℕ) (b : ℕ → ℚ) : ℚ := ∑ i ∈ Finset.range (n * n), b i

/-- Embedding of GridNavi._reset_belief (gridworld.py lines 100-105):
a zero array with mass 1 / len(possible_goals) written at the id of
every possible goal. -/
def reset_belief (n : ℕ) (pg : List (ℤ × ℤ)) : ℕ → ℚ :=
  pg.foldl (fun b g => Function.update b (task_to_id n g) (1 / (pg.length : ℚ)))
    (fun _ => 0)

/-- Hint branch of GridNavi.update_belief (gridworld.py lines 112-118):
the belief is zeroed, then mass 0.5 is written at the id of the true
goal and mass 0.5 at the id of the randomly drawn wrong hint. -/
def hint_belief (n : ℕ) (goal wrong : ℤ × ℤ) : ℕ → ℚ :=
  Function.update
    (Function.update (fun _ => 0) (task_to_id n goal) (1 / 2))
    (task_to_id n wrong) (1 / 2)

/-- Elementwise numpy ceil of a belief vector. -/
def ceiled (b : ℕ → ℚ) : ℕ → ℚ := fun i => ((⌈b i⌉ : ℤ) : ℚ)

/-- Embedding of GridNavi.update_belief (gridworld.py lines 107-124).
The random wrong hint of the hint branch is passed in as the parameter
wrong (drawn by the code from possible_goals with the true goal
removed).  In the non-hint branch the entry at the id of the current
state is zeroed, the vector is ceiled elementwise, and the result is
divided by its sum. -/
def update_belief (n : ℕ) (goal wrong : ℤ × ℤ) (b : ℕ → ℚ)
    (state : ℤ × ℤ) (action : ℤ) : ℕ → ℚ :=
  if action = 5 ∨ state = goal then
    hint_belief n goal wrong
  else
    fun i => ceiled (Function.update b (task_to_id n state) 0) i /
      beliefSum n (ceiled (Function.update b (task_to_id n state) 0))

/-- Well-formedness of the possible-goal list: nonempty, inside the
grid, and duplicate-free (all hold for every construction in
GridNavi.__init__). -/
def GoalsOK (n : ℕ) (pg : List (ℤ × ℤ)) : Prop :=
  pg ≠ [] ∧ (∀ g ∈ pg, inRangeCoord n g) ∧ pg.Nodup

instance (n : ℕ) (pg : List (ℤ × ℤ)) : Decidable (GoalsOK n pg) := by
  rw [GoalsOK]
  infer_instance

/-- Invariant carried by the ground-truth belief: elementwise
non-negative with strictly positive mass at the true goal's id. -/
def BeliefInv (n : ℕ) (goal : ℤ × ℤ) (b : ℕ → ℚ) : Prop :=
  (∀ i, 0 ≤ b i) ∧ 0 < b (task_to_id n goal)

/-- Belief vectors reachable during an episode: the reset belief,
closed under update_belief at in-grid states with a wrong hint drawn
from the possible goals minus the true goal. -/
inductive ReachableBelief (n : ℕ) (pg : List (ℤ × ℤ)) (goal : ℤ × ℤ) :
    (ℕ → ℚ) → Prop
  | reset : ReachableBelief n pg goal (reset_belief n pg)
  | step (b : ℕ → ℚ) (state : ℤ × ℤ) (action : ℤ) (wrong : ℤ × ℤ) :
      ReachableBelief n pg goal b → inRangeCoord n state →
      wrong ∈ pg.erase goal →
      ReachableBelief n pg goal (update_belief n goal wrong b state action)

/-- Embedding of the default possible-goal construction of
GridNavi.__init__ (gridworld.py lines 68-76): the full product of grid
cells with the cells at offsets -1..1 around the starting state removed
(removal is a no-op for positions not in the list, matching the guarded
list.remove). -/
def default_possible_goals (n : ℕ) (start : ℤ × ℤ) : List (ℤ × ℤ) :=
  (((([-1, 0, 1] : List ℤ).map (fun dx => (([-1, 0, 1] : List ℤ)).map
      (fun dy => (dx, dy)))).flatten)).foldl
    (fun pg d => pg.erase (start.1 + d.1, start.2 + d.2))
    (((List.range n).map (fun dx => (List.range n).map
      (fun dy => (((dx : ℤ)), ((dy : ℤ)))))).flatten)

/-- State of the grid environment: agent position, step counter and
ground-truth belief. -/
structure GridState where
  env_state : ℤ × ℤ
  step_count : ℕ
  belief : ℕ → ℚ

/-- Embedding of GridNavi.state_transition (gridworld.py lines 137-160)
at hall_with_door_every = None: action 0 is a noop, 1 is up, 2 right,
3 down, 4 left, clipped to the grid. -/
def state_transition (n : ℕ) (p : ℤ × ℤ) (a : ℤ) : ℤ × ℤ :=
  if a = 1 then (p.1, min (p.2 + 1) ((n : ℤ) - 1))
  else if a = 2 then (min (p.1 + 1) ((n : ℤ) - 1), p.2)
  else if a = 3 then (p.1, max (p.2 - 1) 0)
  else if a = 4 then (max (p.1 - 1) 0, p.2)
  else p

/-- Embedding of GridNavi.step (gridworld.py lines 162-211) at the
default configuration (new_state_r = None, distance_reward = False,
show_goal_at_start = False): transition, increment the step counter,
done when the counter reaches the step limit, reward 1.0 on the goal
cell and -0.1 elsewhere, then the ground-truth belief update at the new
position.  Returns the new state, the reward and the done flag. -/
def grid_step (n maxSteps : ℕ) (goal wrong : ℤ × ℤ) (s : GridState) (a : ℤ) :
    GridState × ℚ × Bool :=
  (⟨state_transition n s.env_state a, s.step_count + 1,
      update_belief n goal wrong s.belief (state_transition n s.env_state a) a⟩,
    (if state_transition n s.env_state a = goal then 1 else -(1 / 10) : ℚ),
    decide (maxSteps ≤ s.step_count + 1))

/-- Trace of grid_step outputs over a list of actions, each paired with
the wrong hint the belief update would draw at that step. -/
def grid_run (n maxSteps : ℕ) (goal : ℤ × ℤ) (s : GridState) :
    List (ℤ × (ℤ × ℤ)) → List (GridState × ℚ × Bool)
  | [] => []
  | (a, w) :: rest =>
      grid_step n maxSteps goal w s a ::
        grid_run n maxSteps goal (grid_step n maxSteps goal w s a).1 rest

/-- Possible goals of the default 5-by-5 grid with start (0, 0). -/
def grid5_goals : List (ℤ × ℤ) := default_possible_goals 5 (0, 0)

/-! ## Theorems -/

theorem variBadStep_fst (K c : ℕ) (d : Bool) :
    (variBadStep K c d).1 = c + (if d then 1 else 0) := by
  cases d <;> simp [variBadStep]

theorem variBadRun_length (K c : ℕ) (ds : List Bool) :
    (variBadRun K c ds).length = ds.length := by
  induction ds generalizing c with
  | nil => rfl
  | cons d ds ih => simp [variBadRun, ih]

theorem variBadRun_append (K c : ℕ) (xs ys : List Bool) :
    variBadRun K c (xs ++ ys) =
      variBadRun K c xs ++ variBadRun K (c + xs.count true) ys := by
  induction xs generalizing c with
  | nil => simp [variBadRun]
  | cons d xs ih =>
      cases d <;>
        simp [variBadRun, variBadStep, ih, List.count_cons, Nat.add_comm,
          Nat.add_assoc, Nat.add_left_comm]

/-- As long as the running episode count stays strictly below K, every
step outputs done_bamdp = false and performs an inner reset exactly at
the inner-done steps. -/
theorem variBadRun_below (K : ℕ) (ds : List Bool) (c : ℕ)
    (h : c + ds.count true < K) :
    variBadRun K c ds = ds.map (fun d => ((false : Bool), d)) := by
  induction ds generalizing c with
  | nil => rfl
  | cons d ds ih =>
      cases d with
      | false =>
          rw [List.count_cons_of_ne (by simp)] at h
          simp [variBadRun, variBadStep, ih c (by omega)]
      | true =>
          rw [List.count_cons_self] at h
          have hd : decide (c + 1 = K) = false := decide_eq_false (by omega)
          simp [variBadRun, variBadStep, hd, ih (c + 1) (by omega)]

theorem countP_snd_map (ds : List Bool) :
    (ds.map (fun d => ((false : Bool), d))).countP (fun p => p.2) = ds.count true := by
  induction ds with
  | nil => rfl
  | cons d ds ih => cases d <;> simp [List.countP_cons, List.count_cons, ih]

theorem countP_fst_map (ds : List Bool) :
    (ds.map (fun d => ((false : Bool), d))).countP (fun p => p.1) = 0 := by
  induction ds with
  | nil => rfl
  | cons d ds ih => simp [List.countP_cons, ih]

/-- A trace is a full BAMDP episode when its K-th inner done is its last
step; such a trace decomposes into a prefix holding K - 1 inner dones
followed by the final done. -/
theorem full_trace_decomp (K : ℕ) (ds : List Bool) (hK : 1 ≤ K)
    (hcount : ds.count true = K) (hlast : ds.getLast? = some true) :
    ds = ds.dropLast ++ [true] ∧ ds.dropLast.count true = K - 1 := by
  have hne : ds ≠ [] := by
    intro h
    rw [h] at hlast
    simp at hlast
  have hlast2 : ds.getLast hne = true := by
    have := List.getLast?_eq_getLast ds hne
    rw [this] at hlast
    exact Option.some.inj hlast
  have hdecomp : ds.dropLast ++ [ds.getLast hne] = ds := List.dropLast_append_getLast hne
  rw [hlast2] at hdecomp
  constructor
  · exact hdecomp.symm
  · have := congrArg (List.count true) hdecomp
    rw [List.count_append] at this
    simp at this
    omega

/-- Over a full BAMDP episode the run of VariBadWrapper.step outputs
decomposes into K - 1 boundary-transparent steps followed by the final
BAMDP-done step. -/
theorem varibad_run_full (K : ℕ) (ds : List Bool) (hK : 1 ≤ K)
    (hcount : ds.count true = K) (hlast : ds.getLast? = some true) :
    variBadRun K 0 ds =
      List.map (fun d => ((false : Bool), d)) ds.dropLast ++
        [((true : Bool), (false : Bool))] := by
  obtain ⟨hdecomp, hcount2⟩ := full_trace_decomp K ds hK hcount hlast
  have hfin : 0 + ds.dropLast.count true + 1 = K := by omega
  conv_lhs => rw [hdecomp]
  rw [variBadRun_append, variBadRun_below K ds.dropLast 0 (by omega)]
  simp only [variBadRun, variBadStep, if_pos rfl]
  rw [decide_eq_true hfin]
  simp

/-- Number of automatic inner resets over a full BAMDP episode. -/
theorem varibad_resets_of_full (K : ℕ) (ds : List Bool) (hK : 1 ≤ K)
    (hcount : ds.count true = K) (hlast : ds.getLast? = some true) :
    (variBadRun K 0 ds).countP (fun p => p.2) = K - 1 := by
  obtain ⟨hdecomp, hcount2⟩ := full_trace_decomp K ds hK hcount hlast
  rw [varibad_run_full K ds hK hcount hlast, List.countP_append, countP_snd_map, hcount2]
  simp

/-- Claim C1: for every full BAMDP episode of VariBadWrapper with
episodes_per_task = K (a done-flag trace holding exactly K inner-done
events whose K-th inner done is the final step), the first K - 1 steps
produce done_bamdp = false with exactly one automatic inner reset at
each inner-done step and none elsewhere, the K-th inner done produces
done_bamdp = true with no reset, and the total number of implicit inner
resets equals K - 1. -/
theorem varibad_boundary_counting (K : ℕ) (ds : List Bool) (hK : 1 ≤ K)
    (hcount : ds.count true = K) (hlast : ds.getLast? = some true) :
    (variBadRun K 0 ds).countP (fun p => p.2) = K - 1 ∧
    (variBadRun K 0 ds).countP (fun p => p.1) = 1 ∧
    (variBadRun K 0 ds).getLast? = some ((true : Bool), (false : Bool)) ∧
    ∀ i, i + 1 < ds.length →
      (variBadRun K 0 ds)[i]? = (ds[i]?).map (fun d => ((false : Bool), d)) := by
  obtain ⟨hdecomp, hcount2⟩ := full_trace_decomp K ds hK hcount hlast
  have hrun := varibad_run_full K ds hK hcount hlast
  refine ⟨varibad_resets_of_full K ds hK hcount hlast, ?_, ?_, ?_⟩
  · rw [hrun, List.countP_append, countP_fst_map]
    simp
  · rw [hrun]
    simp
  · intro i hi
    have hlen : i < ds.dropLast.length := by
      rw [List.length_dropLast]
      omega
    have hlenm : i < (List.map (fun d => ((false : Bool), d)) ds.dropLast).length := by
      rw [List.length_map]
      exact hlen
    rw [hrun, List.getElem?_append_left hlenm, List.getElem?_map]
    conv_rhs => rw [hdecomp, List.getElem?_append_left hlen]

/-- Concrete instance of claim C1 with K = 2 and the inner-done trace
false, true, true. -/
theorem varibad_boundary_counting_witness :
    (variBadRun 2 0 [false, true, true]).countP (fun p => p.2) = 1 ∧
    (variBadRun 2 0 [false, true, true]).countP (fun p => p.1) = 1 ∧
    (variBadRun 2 0 [false, true, true]).getLast? = some ((true : Bool), (false : Bool)) ∧
    (variBadRun 2 0 [false, true, true])[0]? =
      (([false, true, true] : List Bool)[0]?).map (fun d => ((false : Bool), d)) :=
  ⟨(varibad_boundary_counting 2 [false, true, true] (by decide) (by decide) (by decide)).1,
   (varibad_boundary_counting 2 [false, true, true] (by decide) (by decide) (by decide)).2.1,
   (varibad_boundary_counting 2 [false, true, true] (by decide) (by decide) (by decide)).2.2.1,
   (varibad_boundary_counting 2 [false, true, true] (by decide) (by decide) (by decide)).2.2.2 0 (by decide)⟩

theorem bamdp_episode_trace_succ (K H : ℕ) :
    bamdp_episode_trace (K + 1) H = inner_episode_trace H ++ bamdp_episode_trace K H := by
  simp [bamdp_episode_trace, List.replicate_succ]

theorem inner_episode_trace_length (H : ℕ) (hH : 1 ≤ H) :
    (inner_episode_trace H).length = H := by
  simp [inner_episode_trace]
  omega

theorem inner_episode_trace_count (H : ℕ) :
    (inner_episode_trace H).count true = 1 := by
  simp [inner_episode_trace, List.count_replicate]

theorem bamdp_episode_trace_length (K H : ℕ) (hH : 1 ≤ H) :
    (bamdp_episode_trace K H).length = K * H := by
  induction K with
  | zero => simp [bamdp_episode_trace]
  | succ K ih =>
      rw [bamdp_episode_trace_succ, List.length_append, ih,
        inner_episode_trace_length H hH]
      ring

theorem bamdp_episode_trace_count (K H : ℕ) :
    (bamdp_episode_trace K H).count true = K := by
  induction K with
  | zero => simp [bamdp_episode_trace]
  | succ K ih =>
      rw [bamdp_episode_trace_succ, List.count_append, ih, inner_episode_trace_count]
      omega

theorem bamdp_episode_trace_getLast (K H : ℕ) (hK : 1 ≤ K) :
    (bamdp_episode_trace K H).getLast? = some true := by
  induction K with
  | zero => omega
  | succ K ih =>
      rw [bamdp_episode_trace_succ]
      rcases Nat.eq_zero_or_pos K with h0 | hpos
      · subst h0
        simp [bamdp_episode_trace, inner_episode_trace]
      · have hne : bamdp_episode_trace K H ≠ [] := by
          intro h
          have := bamdp_episode_trace_count K H
          rw [h] at this
          simp at this
          omega
        rw [List.getLast?_append_of_ne_nil _ hne]
        exact ih hpos

/-- Claim C7: the BAMDP horizon computed in VariBadWrapper.__init__
equals episodes_per_task times the inner MDP step limit plus
episodes_per_task - 1 extra transition slots, one per automatic inner
reset performed during a full BAMDP episode in which every inner episode
runs for the full step limit. -/
theorem varibad_horizon (K H : ℕ) (hK : 1 ≤ K) (hH : 1 ≤ H) :
    horizon_bamdp K H = K * H + (K - 1) ∧
    horizon_bamdp K H =
      (bamdp_episode_trace K H).length +
        (variBadRun K 0 (bamdp_episode_trace K H)).countP (fun p => p.2) := by
  constructor
  · rfl
  · rw [varibad_resets_of_full K _ hK (bamdp_episode_trace_count K H)
      (bamdp_episode_trace_getLast K H hK), bamdp_episode_trace_length K H hH]
    rfl

/-- Concrete instance of claim C7 with K = 3 episodes of H = 4 steps. -/
theorem varibad_horizon_witness :
    horizon_bamdp 3 4 = 3 * 4 + (3 - 1) ∧
    horizon_bamdp 3 4 =
      (bamdp_episode_trace 3 4).length +
        (variBadRun 3 0 (bamdp_episode_trace 3 4)).countP (fun p => p.2) :=
  varibad_horizon 3 4 (by decide) (by decide)

/-- Claim C8: when reset_task raises TypeError on a task argument, the
wrapper retries reset_task with no argument and the reset completes
normally; an exception of any other type raised by reset_task
propagates to the caller. -/
theorem varibad_reset_task_fallback {τ : Type}
    (resetTask : Option τ → Except PyExc Unit)
    (envReset unwrappedReset : Unit → Except PyExc (List ℚ))
    (addDoneInfo : Bool) (t : τ) (s : List ℚ)
    (hty : resetTask (some t) = Except.error PyExc.typeError)
    (hretry : resetTask none = Except.ok ())
    (henv : envReset () = Except.ok s) :
    variBadReset resetTask envReset unwrappedReset addDoneInfo (some t) =
      Except.ok ⟨if addDoneInfo then s ++ [0] else s, 0, 0, false⟩ ∧
    ∀ (resetTask2 : Option τ → Except PyExc Unit) (e : PyExc),
      e ≠ PyExc.typeError → resetTask2 (some t) = Except.error e →
      variBadReset resetTask2 envReset unwrappedReset addDoneInfo (some t) =
        Except.error e := by
  constructor
  · rw [variBadReset, try_reset_task, hty, hretry, try_env_reset, henv]
  · intro resetTask2 e he hraise
    rw [variBadReset, try_reset_task, hraise]
    cases e with
    | typeError => exact absurd rfl he
    | attributeError => rfl
    | other => rfl

/-- Concrete instance of claim C8: a reset_task that rejects task
specifications with TypeError, and one that raises a different
exception. -/
theorem varibad_reset_task_fallback_witness :
    variBadReset
        (fun o => match o with
          | some (_ : ℕ) => Except.error PyExc.typeError
          | none => Except.ok ())
        (fun _ => Except.ok [5]) (fun _ => Except.ok [7]) true (some 3) =
      Except.ok ⟨[5, 0], 0, 0, false⟩ ∧
    variBadReset (fun (_ : Option ℕ) => Except.error PyExc.other)
        (fun _ => Except.ok [5]) (fun _ => Except.ok [7]) true (some 3) =
      Except.error PyExc.other := by
  have h := varibad_reset_task_fallback
    (fun o => match o with
      | some (_ : ℕ) => Except.error PyExc.typeError
      | none => Except.ok ())
    (fun _ => Except.ok [5]) (fun _ => Except.ok [7]) true 3 [5]
    rfl rfl rfl
  exact ⟨h.1, h.2 (fun _ => Except.error PyExc.other) PyExc.other (by decide) rfl⟩

/-- Claim C2: at every rollout step, the hidden state consumed by the
encoder for a worker is the prior state exactly when that worker's done
flag is set, and the hidden state carried over from the previous step
otherwise; with no done mask the hidden state is carried forward
unchanged into the encoder. -/
theorem update_encoding_hidden_reset {H : Type} (encStep : H → H) (prior : H)
    (hs : List H) (d : List Bool) (rest : List (List Bool × (H → H))) (i : ℕ)
    (h1 : i < hs.length) (h2 : i < d.length) :
    (reset_hidden prior hs d)[i]? = some (if d[i] then prior else hs[i]) ∧
    (update_encoding encStep prior (some d) hs)[i]? =
      some (encStep (if d[i] then prior else hs[i])) ∧
    update_encoding encStep prior none hs = hs.map encStep ∧
    encode_rollout prior hs ((d, encStep) :: rest) =
      encode_rollout prior (update_encoding encStep prior (some d) hs) rest := by
  have hr : (reset_hidden prior hs d)[i]? = some (if d[i] then prior else hs[i]) := by
    rw [reset_hidden, List.getElem?_zipWith_eq_some]
    exact ⟨hs[i], d[i], List.getElem_eq_iff.mp rfl, List.getElem_eq_iff.mp rfl, rfl⟩
  refine ⟨hr, ?_, rfl, rfl⟩
  rw [update_encoding, List.getElem?_map, hr]
  rfl

/-- Concrete instance of claim C2 with two workers, of which only the
second hits an episode boundary. -/
theorem update_encoding_hidden_reset_witness :
    (reset_hidden 100 [1, 2] [false, true])[1]? =
      some (if ([false, true] : List Bool)[1] then 100 else ([1, 2] : List ℕ)[1]) ∧
    (update_encoding Nat.succ 100 (some [false, true]) [1, 2])[1]? =
      some (Nat.succ (if ([false, true] : List Bool)[1] then 100 else ([1, 2] : List ℕ)[1])) ∧
    update_encoding Nat.succ 100 none [1, 2] = ([1, 2] : List ℕ).map Nat.succ ∧
    encode_rollout 100 [1, 2] [([false, true], Nat.succ)] =
      encode_rollout 100 (update_encoding Nat.succ 100 (some [false, true]) [1, 2]) [] :=
  update_encoding_hidden_reset Nat.succ 100 [1, 2] [false, true] []
    1 (by decide) (by decide)

/-- Counterexample to claim C3 as stated: the online and recomputed
mean sequences disagree elementwise, yet because the elementwise
differences cancel in the sum the assertions pass and no warning or
diagnostic break occurs, silently suppressing the mismatch. -/
theorem recompute_check_missed_mismatch :
    recompute_check 0 [1, -1] [-1, 1] [0] [0] = RecomputeOutcome.pass ∧
    ([1, -1] : List ℚ) ≠ [-1, 1] := by
  constructor
  · have h1 : diffSum [1, -1] [-1, 1] = 0 := by
      simp [diffSum]
    have h2 : diffSum [0] [0] = (0 : ℚ) := by
      simp [diffSum]
    rw [recompute_check, if_pos rfl, if_pos ⟨h1, h2⟩]
  · intro h
    have := congrArg (fun l => l.headI) h
    norm_num at this

/-- Claim C3 as amended: on the first update epoch (the unchanged
parameter case) the mismatch is flagged with a warning and a blocking
pdb break exactly when the summed elementwise difference of the mean
sequences or of the logvar sequences is nonzero, there is no retry
path, and on later epochs no check runs; a disagreement whose
elementwise differences cancel to a zero sum is not detected. -/
theorem recompute_check_flag_iff (update_idx : ℕ)
    (storedMean newMean storedLogvar newLogvar : List ℚ) :
    (recompute_check update_idx storedMean newMean storedLogvar newLogvar =
        RecomputeOutcome.warnAndBreak ↔
      update_idx = 0 ∧
        (diffSum storedMean newMean ≠ 0 ∨ diffSum storedLogvar newLogvar ≠ 0)) ∧
    (recompute_check update_idx storedMean newMean storedLogvar newLogvar =
        RecomputeOutcome.pass ∨
      recompute_check update_idx storedMean newMean storedLogvar newLogvar =
        RecomputeOutcome.warnAndBreak) := by
  constructor
  · rw [recompute_check]
    by_cases h0 : update_idx = 0
    · rw [if_pos h0]
      by_cases hd : diffSum storedMean newMean = 0 ∧ diffSum storedLogvar newLogvar = 0
      · rw [if_pos hd]
        simp [h0]
        tauto
      · rw [if_neg hd]
        simp [h0]
        tauto
    · rw [if_neg h0]
      simp [h0]
  · rw [recompute_check]
    by_cases h0 : update_idx = 0
    · rw [if_pos h0]
      by_cases hd : diffSum storedMean newMean = 0 ∧ diffSum storedLogvar newLogvar = 0
      · rw [if_pos hd]
        exact Or.inl rfl
      · rw [if_neg hd]
        exact Or.inr rfl
    · rw [if_neg h0]
      exact Or.inl rfl

/-- Claim C5: bad_transition is set exactly at done steps whose elapsed
inner step count equals the limit, the training loop records
bad_masks = 0 exactly for those steps and 1 for all others, and in the
return computation a time-limit step is replaced by the value estimate
(not treated as a true terminal state) while a true termination zeroes
out the bootstrap, leaving only the reward. -/
theorem timelimit_bad_masks (done : Bool) (maxSteps elapsed : ℕ)
    (gamma ret_next reward value : ℚ) :
    (bad_mask_of (time_limit_mask_info done maxSteps elapsed false) = 0 ↔
      done = true ∧ maxSteps = elapsed) ∧
    (bad_mask_of (time_limit_mask_info done maxSteps elapsed false) = 1 ↔
      ¬(done = true ∧ maxSteps = elapsed)) ∧
    (mask_of done = 0 ↔ done = true) ∧
    return_update gamma ret_next reward value (mask_of true) (bad_mask_of true) = value ∧
    return_update gamma ret_next reward value (mask_of true) (bad_mask_of false) = reward ∧
    return_update gamma ret_next reward value (mask_of false) (bad_mask_of false) =
      ret_next * gamma + reward := by
  refine ⟨?_, ?_, ?_, ?_, ?_, ?_⟩
  · cases done <;> by_cases h : maxSteps = elapsed <;>
      simp [bad_mask_of, time_limit_mask_info, mask_of, h]
  · cases done <;> by_cases h : maxSteps = elapsed <;>
      simp [bad_mask_of, time_limit_mask_info, mask_of, h]
  · cases done <;> simp [mask_of]
  · rw [return_update, mask_of, bad_mask_of]
    ring_nf
    simp
  · rw [return_update, mask_of, bad_mask_of]
    ring_nf
    simp
  · rw [return_update, mask_of, bad_mask_of]
    ring_nf
    simp
    ring

theorem task_to_id_lt (n : ℕ) (g : ℤ × ℤ) (h : inRangeCoord n g) :
    task_to_id n g < n * n := by
  obtain ⟨h1, h2, h3, h4⟩ := h
  have h0 : (0 : ℤ) ≤ g.1 * (n : ℤ) + g.2 := by positivity
  have hlt : g.1 * (n : ℤ) + g.2 < (n : ℤ) * n := by nlinarith
  rw [task_to_id]
  zify
  rw [Int.toNat_of_nonneg h0]
  exact_mod_cast hlt

theorem task_to_id_inj (n : ℕ) (g1 g2 : ℤ × ℤ) (h1 : inRangeCoord n g1)
    (h2 : inRangeCoord n g2) (heq : task_to_id n g1 = task_to_id n g2) :
    g1 = g2 := by
  obtain ⟨ha1, ha2, ha3, ha4⟩ := h1
  obtain ⟨hb1, hb2, hb3, hb4⟩ := h2
  have hn : (0 : ℤ) < (n : ℤ) := lt_of_le_of_lt ha3 ha4
  have hz1 : (0 : ℤ) ≤ g1.1 * (n : ℤ) + g1.2 := by positivity
  have hz2 : (0 : ℤ) ≤ g2.1 * (n : ℤ) + g2.2 := by positivity
  have heqz : g1.1 * (n : ℤ) + g1.2 = g2.1 * (n : ℤ) + g2.2 := by
    rw [task_to_id, task_to_id] at heq
    omega
  have hx : g1.1 = g2.1 := by
    by_contra hne
    rcases lt_or_gt_of_ne hne with h | h
    · have := mul_le_mul_of_nonneg_right (Int.add_one_le_iff.mpr h) (le_of_lt hn)
      nlinarith
    · have := mul_le_mul_of_nonneg_right (Int.add_one_le_iff.mpr h) (le_of_lt hn)
      nlinarith
  have hy : g1.2 = g2.2 := by
    rw [hx] at heqz
    omega
  exact Prod.ext hx hy

theorem foldl_update_apply (n : ℕ) (v : ℚ) (l : List (ℤ × ℤ)) (b0 : ℕ → ℚ) (i : ℕ) :
    (l.foldl (fun b g => Function.update b (task_to_id n g) v) b0) i =
      if i ∈ l.map (task_to_id n) then v else b0 i := by
  induction l generalizing b0 with
  | nil => simp
  | cons g l ih =>
      rw [List.foldl_cons, ih]
      by_cases hmem : i ∈ l.map (task_to_id n)
      · rw [if_pos hmem, if_pos (by simp [hmem])]
      · rw [if_neg hmem, Function.update_apply]
        by_cases hg : i = task_to_id n g
        · rw [if_pos hg, if_pos (by simp [hg])]
        · rw [if_neg hg, if_neg (by simp [hmem, hg])]

theorem reset_belief_apply (n : ℕ) (pg : List (ℤ × ℤ)) (i : ℕ) :
    reset_belief n pg i =
      if i ∈ pg.map (task_to_id n) then 1 / (pg.length : ℚ) else 0 :=
  foldl_update_apply n (1 / (pg.length : ℚ)) pg (fun _ => 0) i

theorem goals_map_nodup (n : ℕ) (pg : List (ℤ × ℤ)) (hok : GoalsOK n pg) :
    (pg.map (task_to_id n)).Nodup := by
  obtain ⟨hne, hin, hnd⟩ := hok
  exact List.Nodup.map_on
    (fun x hx y hy hxy => task_to_id_inj n x y (hin x hx) (hin y hy) hxy) hnd

theorem reset_belief_sum (n : ℕ) (pg : List (ℤ × ℤ)) (hok : GoalsOK n pg) :
    beliefSum n (reset_belief n pg) = 1 := by
  have hmapnd := goals_map_nodup n pg hok
  obtain ⟨hne, hin, hnd⟩ := hok
  rw [beliefSum]
  have happ : ∀ i, reset_belief n pg i =
      if i ∈ (pg.map (task_to_id n)).toFinset then 1 / (pg.length : ℚ) else 0 := by
    intro i
    rw [reset_belief_apply]
    by_cases h : i ∈ pg.map (task_to_id n)
    · rw [if_pos h, if_pos (List.mem_toFinset.mpr h)]
    · rw [if_neg h, if_neg (fun hc => h (List.mem_toFinset.mp hc))]
  rw [Finset.sum_congr rfl (fun i _ => happ i), Finset.sum_ite_mem]
  have hsub : (pg.map (task_to_id n)).toFinset ⊆ Finset.range (n * n) := by
    intro i hi
    obtain ⟨g, hg, rfl⟩ := List.mem_map.mp (List.mem_toFinset.mp hi)
    exact Finset.mem_range.mpr (task_to_id_lt n g (hin g hg))
  rw [Finset.inter_eq_right.mpr hsub, Finset.sum_const,
    List.toFinset_card_of_nodup hmapnd, List.length_map]
  have hlen : (pg.length : ℚ) ≠ 0 := by
    have := List.length_pos.mpr hne
    positivity
  rw [nsmul_eq_mul]
  field_simp

theorem reset_belief_nonneg (n : ℕ) (pg : List (ℤ × ℤ)) (i : ℕ) :
    0 ≤ reset_belief n pg i := by
  rw [reset_belief_apply]
  by_cases h : i ∈ pg.map (task_to_id n)
  · rw [if_pos h]
    positivity
  · rw [if_neg h]

theorem reset_belief_goal_pos (n : ℕ) (pg : List (ℤ × ℤ)) (goal : ℤ × ℤ)
    (hne : pg ≠ []) (hg : goal ∈ pg) :
    0 < reset_belief n pg (task_to_id n goal) := by
  rw [reset_belief_apply, if_pos (List.mem_map_of_mem _ hg)]
  have := List.length_pos.mpr hne
  positivity

theorem hint_belief_apply (n : ℕ) (goal wrong : ℤ × ℤ) (i : ℕ) :
    hint_belief n goal wrong i =
      if i = task_to_id n wrong then 1 / 2
      else if i = task_to_id n goal then 1 / 2 else 0 := by
  rw [hint_belief, Function.update_apply, Function.update_apply]

theorem hint_belief_nonneg (n : ℕ) (goal wrong : ℤ × ℤ) (i : ℕ) :
    0 ≤ hint_belief n goal wrong i := by
  rw [hint_belief_apply]
  split
  · norm_num
  · split
    · norm_num
    · exact le_refl 0

theorem hint_belief_goal_pos (n : ℕ) (goal wrong : ℤ × ℤ) :
    0 < hint_belief n goal wrong (task_to_id n goal) := by
  rw [hint_belief_apply]
  split
  · norm_num
  · rw [if_pos rfl]
    norm_num

theorem hint_belief_sum (n : ℕ) (goal wrong : ℤ × ℤ)
    (hg : task_to_id n goal < n * n) (hw : task_to_id n wrong < n * n)
    (hne : task_to_id n wrong ≠ task_to_id n goal) :
    beliefSum n (hint_belief n goal wrong) = 1 := by
  rw [beliefSum, hint_belief,
    Finset.sum_update_of_mem (Finset.mem_range.mpr hw),
    Finset.sum_update_of_mem (Finset.mem_sdiff.mpr
      ⟨Finset.mem_range.mpr hg, by simp [hne.symm]⟩)]
  simp
  norm_num

theorem ceiled_nonneg (b : ℕ → ℚ) (h : ∀ i, 0 ≤ b i) (i : ℕ) :
    0 ≤ ceiled b i := by
  rw [ceiled]
  exact_mod_cast Int.ceil_nonneg (h i)

theorem ceiled_pos (b : ℕ → ℚ) (i : ℕ) (h : 0 < b i) : 1 ≤ ceiled b i := by
  rw [ceiled]
  have h1 : 0 < ⌈b i⌉ := Int.ceil_pos.mpr h
  have h2 : 1 ≤ ⌈b i⌉ := h1
  exact_mod_cast h2

/-- Positivity of the divisor of the renormalization branch of
update_belief: the ceiled vector has at least mass one at any index of
positive mass inside the grid. -/
theorem renorm_divisor_pos (n : ℕ) (b : ℕ → ℚ) (j : ℕ) (hj : j < n * n)
    (hnn : ∀ i, 0 ≤ b i) (hpos : 0 < b j) :
    0 < beliefSum n (ceiled b) := by
  have h1 : 1 ≤ ceiled b j := ceiled_pos b j hpos
  have h2 : ceiled b j ≤ beliefSum n (ceiled b) :=
    Finset.single_le_sum (fun i _ => ceiled_nonneg b hnn i)
      (Finset.mem_range.mpr hj)
  linarith

/-- The update_belief step preserves the belief invariant and produces
a unit-mass vector, in both the hint branch and the renormalization
branch. -/
theorem update_belief_props (n : ℕ) (pg : List (ℤ × ℤ)) (goal wrong : ℤ × ℤ)
    (b : ℕ → ℚ) (state : ℤ × ℤ) (action : ℤ)
    (hok : GoalsOK n pg) (hg : goal ∈ pg) (hw : wrong ∈ pg.erase goal)
    (hinv : BeliefInv n goal b) (hs : inRangeCoord n state) :
    beliefSum n (update_belief n goal wrong b state action) = 1 ∧
    BeliefInv n goal (update_belief n goal wrong b state action) := by
  obtain ⟨hne, hin, hnd⟩ := hok
  have hgr : inRangeCoord n goal := hin goal hg
  have hwpg : wrong ∈ pg := List.mem_of_mem_erase hw
  have hwne : wrong ≠ goal := ((List.Nodup.mem_erase_iff hnd).mp hw).1
  have hwr : inRangeCoord n wrong := hin wrong hwpg
  have hidne : task_to_id n wrong ≠ task_to_id n goal := by
    intro h
    exact hwne (task_to_id_inj n wrong goal hwr hgr h)
  by_cases hbr : action = 5 ∨ state = goal
  · rw [update_belief, if_pos hbr]
    exact ⟨hint_belief_sum n goal wrong (task_to_id_lt n goal hgr)
        (task_to_id_lt n wrong hwr) hidne,
      fun i => hint_belief_nonneg n goal wrong i,
      hint_belief_goal_pos n goal wrong⟩
  · rw [update_belief, if_neg hbr]
    push_neg at hbr
    have hsg : state ≠ goal := hbr.2
    have hsidne : task_to_id n goal ≠ task_to_id n state := by
      intro h
      exact hsg (task_to_id_inj n state goal hs hgr h.symm)
    have hb1nn : ∀ i, 0 ≤ Function.update b (task_to_id n state) 0 i := by
      intro i
      rw [Function.update_apply]
      split
      · exact le_refl 0
      · exact hinv.1 i
    have hb1g : Function.update b (task_to_id n state) 0 (task_to_id n goal) =
        b (task_to_id n goal) := Function.update_noteq hsidne 0 b
    have hSpos : 0 < beliefSum n (ceiled (Function.update b (task_to_id n state) 0)) := by
      apply renorm_divisor_pos n _ (task_to_id n goal) (task_to_id_lt n goal hgr) hb1nn
      rw [hb1g]
      exact hinv.2
    refine ⟨?_, ?_, ?_⟩
    · rw [beliefSum, ← Finset.sum_div]
      exact div_self (ne_of_gt hSpos)
    · intro i
      exact div_nonneg (ceiled_nonneg _ hb1nn i) (le_of_lt hSpos)
    · apply div_pos ?_ hSpos
      have : 0 < Function.update b (task_to_id n state) 0 (task_to_id n goal) := by
        rw [hb1g]
        exact hinv.2
      linarith [ceiled_pos (Function.update b (task_to_id n state) 0) (task_to_id n goal) this]

/-- Every reachable belief satisfies the belief invariant. -/
theorem reachable_belief_inv (n : ℕ) (pg : List (ℤ × ℤ)) (goal : ℤ × ℤ)
    (b : ℕ → ℚ) (hok : GoalsOK n pg) (hg : goal ∈ pg)
    (hr : ReachableBelief n pg goal b) : BeliefInv n goal b := by
  induction hr with
  | reset =>
      exact ⟨reset_belief_nonneg n pg,
        reset_belief_goal_pos n pg goal hok.1 hg⟩
  | step b state action wrong hb hs hw ih =>
      exact (update_belief_props n pg goal wrong b state action hok hg hw ih hs).2

/-- Claim C4: the ground-truth belief of the grid environment is always
elementwise non-negative with total mass one: after _reset_belief, and
after update_belief at any reachable belief and in-grid state, covering
both the hint branch (two masses of one half) and the
zero-and-renormalize branch. -/
theorem grid_belief_invariant (n : ℕ) (pg : List (ℤ × ℤ))
    (goal state wrong : ℤ × ℤ) (action : ℤ) (b : ℕ → ℚ)
    (hok : GoalsOK n pg) (hg : goal ∈ pg) (hw : wrong ∈ pg.erase goal)
    (hr : ReachableBelief n pg goal b) (hs : inRangeCoord n state) :
    (beliefSum n (reset_belief n pg) = 1 ∧ ∀ i, 0 ≤ reset_belief n pg i) ∧
    (beliefSum n (update_belief n goal wrong b state action) = 1 ∧
      ∀ i, 0 ≤ update_belief n goal wrong b state action i) := by
  have hinv := reachable_belief_inv n pg goal b hok hg hr
  have hprops := update_belief_props n pg goal wrong b state action hok hg hw hinv hs
  exact ⟨⟨reset_belief_sum n pg hok, reset_belief_nonneg n pg⟩,
    hprops.1, hprops.2.1⟩

/-- Concrete instance of claim C4 on a 2-by-2 grid with three possible
goals. -/
theorem grid_belief_invariant_witness :
    (beliefSum 2 (reset_belief 2 [(0, 1), (1, 0), (1, 1)]) = 1 ∧
      0 ≤ reset_belief 2 [(0, 1), (1, 0), (1, 1)] 0) ∧
    beliefSum 2 (update_belief 2 (1, 1) (0, 1)
      (reset_belief 2 [(0, 1), (1, 0), (1, 1)]) (0, 1) 0) = 1 ∧
    0 ≤ update_belief 2 (1, 1) (0, 1)
      (reset_belief 2 [(0, 1), (1, 0), (1, 1)]) (0, 1) 0 0 := by
  have h := grid_belief_invariant 2 [(0, 1), (1, 0), (1, 1)] (1, 1) (0, 1) (0, 1) 0
    (reset_belief 2 [(0, 1), (1, 0), (1, 1)])
    ⟨by decide, by decide, by decide⟩ (by decide) (by decide)
    ReachableBelief.reset ⟨by decide, by decide, by decide, by decide⟩
  exact ⟨⟨h.1.1, h.1.2 0⟩, h.2.1, h.2.2 0⟩

/-- Claim C9: in the non-hint branch of update_belief the
renormalization never divides by zero: zeroing the entry of the current
state leaves the entry at the true goal's id untouched, the divisor is
strictly positive at every reachable belief, and whenever the state
equals the goal the hint branch is taken instead. -/
theorem grid_renorm_divisor_pos (n : ℕ) (pg : List (ℤ × ℤ))
    (goal state : ℤ × ℤ) (b : ℕ → ℚ)
    (hok : GoalsOK n pg) (hg : goal ∈ pg) (hr : ReachableBelief n pg goal b)
    (hs : inRangeCoord n state) (hne : state ≠ goal) :
    Function.update b (task_to_id n state) 0 (task_to_id n goal) =
      b (task_to_id n goal) ∧
    0 < beliefSum n (ceiled (Function.update b (task_to_id n state) 0)) ∧
    ∀ (b2 : ℕ → ℚ) (wrong : ℤ × ℤ) (action : ℤ),
      update_belief n goal wrong b2 goal action = hint_belief n goal wrong := by
  have hinv := reachable_belief_inv n pg goal b hok hg hr
  have hgr : inRangeCoord n goal := hok.2.1 goal hg
  have hsidne : task_to_id n goal ≠ task_to_id n state := by
    intro h
    exact hne (task_to_id_inj n state goal hs hgr h.symm)
  have hb1g : Function.update b (task_to_id n state) 0 (task_to_id n goal) =
      b (task_to_id n goal) := Function.update_noteq hsidne 0 b
  refine ⟨hb1g, ?_, ?_⟩
  · apply renorm_divisor_pos n _ (task_to_id n goal) (task_to_id_lt n goal hgr) ?_
    · rw [hb1g]
      exact hinv.2
    · intro i
      rw [Function.update_apply]
      split
      · exact le_refl 0
      · exact hinv.1 i
  · intro b2 wrong action
    rw [update_belief, if_pos (Or.inr rfl)]

/-- Concrete instance of claim C9 on a 2-by-2 grid with three possible
goals, at the reset belief and the off-goal state (0, 1). -/
theorem grid_renorm_divisor_pos_witness :
    Function.update (reset_belief 2 [(0, 1), (1, 0), (1, 1)])
        (task_to_id 2 (0, 1)) 0 (task_to_id 2 (1, 1)) =
      reset_belief 2 [(0, 1), (1, 0), (1, 1)] (task_to_id 2 (1, 1)) ∧
    0 < beliefSum 2 (ceiled (Function.update
        (reset_belief 2 [(0, 1), (1, 0), (1, 1)]) (task_to_id 2 (0, 1)) 0)) ∧
    update_belief 2 (1, 1) (0, 1) (reset_belief 2 [(0, 1), (1, 0), (1, 1)])
        (1, 1) 3 = hint_belief 2 (1, 1) (0, 1) := by
  have h := grid_renorm_divisor_pos 2 [(0, 1), (1, 0), (1, 1)] (1, 1) (0, 1)
    (reset_belief 2 [(0, 1), (1, 0), (1, 1)])
    ⟨by decide, by decide, by decide⟩ (by decide) ReachableBelief.reset
    ⟨by decide, by decide, by decide, by decide⟩ (by decide)
  exact ⟨h.1, h.2.1, h.2.2 (reset_belief 2 [(0, 1), (1, 0), (1, 1)]) (0, 1) 3⟩

/-- Claim C6: in the default 5-by-5 grid with start (0, 0), goal (3, 3),
a 15-step horizon and episodes_per_task = 1, every step ending on the
goal cell yields reward exactly 1, every other step yields reward
exactly -0.1, and after the agent is observed at the goal the belief
collapses to mass one half on the true goal and one half on the drawn
wrong goal (at distinct cell ids). -/
theorem grid_default_scenario (s : GridState) (a : ℤ) (wrong : ℤ × ℤ)
    (hw : wrong ∈ grid5_goals.erase (3, 3)) (ha : 0 ≤ a ∧ a < 5) :
    ((grid_step 5 15 (3, 3) wrong s a).1.env_state = (3, 3) →
      (grid_step 5 15 (3, 3) wrong s a).2.1 = 1) ∧
    ((grid_step 5 15 (3, 3) wrong s a).1.env_state ≠ (3, 3) →
      (grid_step 5 15 (3, 3) wrong s a).2.1 = -(1 / 10)) ∧
    task_to_id 5 wrong ≠ task_to_id 5 (3, 3) ∧
    ((grid_step 5 15 (3, 3) wrong s a).1.env_state = (3, 3) →
      ∀ i, (grid_step 5 15 (3, 3) wrong s a).1.belief i =
        if i = task_to_id 5 wrong then 1 / 2
        else if i = task_to_id 5 (3, 3) then 1 / 2 else 0) := by
  have hwpg : wrong ∈ grid5_goals := List.mem_of_mem_erase hw
  have hnd : grid5_goals.Nodup := by decide
  have hwne : wrong ≠ (3, 3) := ((List.Nodup.mem_erase_iff hnd).mp hw).1
  have hall : ∀ g ∈ grid5_goals, inRangeCoord 5 g := by decide
  have hidne : task_to_id 5 wrong ≠ task_to_id 5 (3, 3) := by
    intro h
    exact hwne (task_to_id_inj 5 wrong (3, 3) (hall wrong hwpg) (by decide) h)
  refine ⟨?_, ?_, hidne, ?_⟩
  · intro h
    rw [grid_step] at h ⊢
    simp only at h
    simp only [if_pos h]
  · intro h
    rw [grid_step] at h ⊢
    simp only at h
    simp only [if_neg h]
  · intro h i
    rw [grid_step] at h ⊢
    simp only at h
    simp only [update_belief, if_pos (Or.inr h), hint_belief_apply]

/-- Concrete instance of claim C6: from cell (3, 2), action 1 (up) moves
onto the goal (3, 3); with wrong hint (0, 3) the reward is 1 and the
belief mass at cell id 18 (the goal) is one half. -/
theorem grid_default_scenario_witness :
    (grid_step 5 15 (3, 3) (0, 3) ⟨(3, 2), 0, fun _ => 0⟩ 1).2.1 = 1 ∧
    task_to_id 5 (0, 3) ≠ task_to_id 5 (3, 3) ∧
    (grid_step 5 15 (3, 3) (0, 3) ⟨(3, 2), 0, fun _ => 0⟩ 1).1.belief 18 =
      if 18 = task_to_id 5 (0, 3) then 1 / 2
      else if 18 = task_to_id 5 (3, 3) then 1 / 2 else 0 := by
  have h := grid_default_scenario ⟨(3, 2), 0, fun _ => 0⟩ 1 (0, 3)
    (by decide) (by decide)
  exact ⟨h.1 (by decide), h.2.2.1, h.2.2.2 (by decide) 18⟩

theorem grid_run_done_index (n m : ℕ) (goal : ℤ × ℤ) :
    ∀ (steps : List (ℤ × (ℤ × ℤ))) (s : GridState) (k : ℕ), k < steps.length →
      ((grid_run n m goal s steps).map (fun o => o.2.2))[k]? =
        some (decide (m ≤ s.step_count + k + 1)) := by
  intro steps
  induction steps with
  | nil =>
      intro s k hk
      simp at hk
  | cons p rest ih =>
      intro s k hk
      obtain ⟨a, w⟩ := p
      cases k with
      | zero =>
          rw [grid_run]
          simp only [List.map_cons, List.getElem?_cons_zero]
          rfl
      | succ k =>
          rw [grid_run]
          simp only [List.map_cons, List.getElem?_cons_succ]
          have hk2 : k < rest.length := by
            simp at hk
            omega
          have hsc : (grid_step n m goal w s a).1.step_count = s.step_count + 1 := rfl
          rw [ih (grid_step n m goal w s a).1 k hk2, hsc]
          have harith : s.step_count + 1 + k + 1 = s.step_count + (k + 1) + 1 := by
            omega
          rw [harith]

/-- Claim C10: GridNavi.step reports done exactly when the incremented
step counter reaches _max_episode_steps and never earlier; starting
from a reset state (counter zero), the k-th step of any action sequence
is done iff k + 1 has reached the limit, independently of positions,
goal hits and rewards, so the inner episode always runs exactly
_max_episode_steps steps. -/
theorem grid_done_at_step_limit (n m : ℕ) (goal : ℤ × ℤ) (s0 : GridState)
    (steps : List (ℤ × (ℤ × ℤ))) (h0 : s0.step_count = 0) (k : ℕ)
    (hk : k < steps.length) :
    ((grid_run n m goal s0 steps).map (fun o => o.2.2))[k]? =
      some (decide (m ≤ k + 1)) ∧
    ∀ (s : GridState) (a : ℤ) (w : ℤ × ℤ),
      (grid_step n m goal w s a).2.2 = decide (m ≤ s.step_count + 1) := by
  constructor
  · rw [grid_run_done_index n m goal steps s0 k hk, h0, Nat.zero_add]
  · intro s a w
    rfl

/-- Concrete instance of claim C10: with a step limit of 2, the second
step of a run from a reset state is done and a first step is not. -/
theorem grid_done_at_step_limit_witness :
    ((grid_run 5 2 (3, 3) ⟨(0, 0), 0, fun _ => 0⟩
        [(0, (1, 1)), (0, (1, 1))]).map (fun o => o.2.2))[1]? =
      some (decide (2 ≤ 1 + 1)) ∧
    (grid_step 5 2 (3, 3) (1, 1) ⟨(0, 0), 0, fun _ => 0⟩ 0).2.2 =
      decide (2 ≤ 0 + 1) := by
  have h := grid_done_at_step_limit 5 2 (3, 3) ⟨(0, 0), 0, fun _ => 0⟩
    [(0, (1, 1)), (0, (1, 1))] rfl 1 (by decide)
  exact ⟨h.1, h.2 ⟨(0, 0), 0, fun _ => 0⟩ 0 (1, 1)⟩
